import Mathlib

/-!
Shallow embedding of the sentence-boundary correction engine of `gmutils`
(src/gmutils/nlp.py, src/gmutils/document.py, src/gmutils/objects.py).

Python strings are modelled as `List Char`.  A spaCy `Doc` is modelled as the
list of its tokens (each with its text and its trailing whitespace, spaCy's
`whitespace_`) together with the raw sentence-candidate offset pairs produced
by the sentencizer (`doc.sents`), which the code under verification treats as
input.  A spaCy `Span` carries its `start`/`end` token offsets and its surface
text; `Span.text` is the concatenation of the covered tokens' texts with the
inter-token whitespace, the trailing whitespace of the last token excluded.
-/

/-- Python `str.islower()` on a single character, ASCII fragment. -/
def pyIsLower (c : Char) : Bool :=
  97 ≤ c.toNat && c.toNat ≤ 122

/-- Python `str.isupper()` on a single character, ASCII fragment. -/
def pyIsUpper (c : Char) : Bool :=
  65 ≤ c.toNat && c.toNat ≤ 90

/-- Python regex `\s` (whitespace class), ASCII fragment:
space, tab, newline, carriage return, vertical tab, form feed. -/
def pyIsSpace (c : Char) : Bool :=
  c.toNat == 32 || c.toNat == 9 || c.toNat == 10 || c.toNat == 13 ||
  c.toNat == 11 || c.toNat == 12

/-- Python `str.isalnum()` on a single character, ASCII fragment
(letters and digits). -/
def pyIsAlnum (c : Char) : Bool :=
  (48 ≤ c.toNat && c.toNat ≤ 57) || (65 ≤ c.toNat && c.toNat ≤ 90) ||
  (97 ≤ c.toNat && c.toNat ≤ 122)

/-- Character class `[.?!]` of the terminal-punctuation regexes. -/
def isPunct (c : Char) : Bool :=
  c == '.' || c == '?' || c == '!'

/-- A spaCy token: surface text plus trailing whitespace, and the
`is_sent_start` flag (`None` or `True` are the values this code writes). -/
structure Token where
  text : List Char
  ws : List Char
  sent_start : Option Bool
  deriving Repr, DecidableEq

/-- A spaCy `Doc`: the token stream and the raw sentence-candidate offset
pairs coming out of the sentencizer (`doc.sents`). -/
structure SDoc where
  tokens : List Token
  sents : List (Nat × Nat)
  deriving Repr, DecidableEq

/-- Text of a contiguous token run: each token's text followed by its
trailing whitespace, except that the last token's trailing whitespace is not
part of the span text (spaCy `Span.text`). -/
def joinToks : List Token → List Char
  | [] => []
  | [t] => t.text
  | t :: rest => t.text ++ t.ws ++ joinToks rest

/-- Text of the span `doc[s:e]` (Python slicing clamps out-of-range ends). -/
def spanText (doc : SDoc) (s e : Nat) : List Char :=
  joinToks ((doc.tokens.drop s).take (e - s))

/-- A spaCy `Span` as consumed by `combine_with_previous`: token offsets
(`start`/`end`; the second is called `stop` here because `end` is a Lean
keyword) and surface text. -/
structure PySpan where
  start : Nat
  stop : Nat
  text : List Char
  deriving Repr, DecidableEq

/-- The span `doc[s:e]`. -/
def spanOf (doc : SDoc) (s e : Nat) : PySpan :=
  ⟨s, e, spanText doc s e⟩

/-- Regex `[.?!]$` tested on the reversed character list. -/
def revPunct : List Char → Bool
  | c :: _ => isPunct c
  | [] => false

/-- Regex `[.?!]\S$` tested on the reversed character list. -/
def revPunctNonSpace : List Char → Bool
  | c :: b :: _ => !pyIsSpace c && isPunct b
  | _ => false

/-- Regex `[.?!]\S\S$` tested on the reversed character list. -/
def revPunctNonSpace2 : List Char → Bool
  | c :: b :: a :: _ => !pyIsSpace c && !pyIsSpace b && isPunct a
  | _ => false

/-- Regex `[.?!]\s$` tested on the reversed character list. -/
def revPunctSpace : List Char → Bool
  | c :: b :: _ => pyIsSpace c && isPunct b
  | _ => false

/-- Regex `[.?!]\s\s$` tested on the reversed character list. -/
def revPunctSpace2 : List Char → Bool
  | c :: b :: a :: _ => pyIsSpace c && pyIsSpace b && isPunct a
  | _ => false

/-- Python `re.search` for an end-anchored pattern: `$` matches at the end of
the string and also just before a newline that ends the string. -/
def pyEndSearch (p : List Char → Bool) (text : List Char) : Bool :=
  p text.reverse ||
    (match text.reverse with
     | c :: rest => c == '\n' && p rest
     | [] => false)

/-- Disjunction of the five end-anchored regex tests of nlp.py lines
126-130 (and document.py lines 115-119): the previous sentence's text ends in
`.`, `?` or `!`, optionally followed by one or two non-whitespace characters
or one or two whitespace characters. -/
def hasEndingPunct (text : List Char) : Bool :=
  pyEndSearch revPunct text || pyEndSearch revPunctNonSpace text ||
  pyEndSearch revPunctNonSpace2 text || pyEndSearch revPunctSpace text ||
  pyEndSearch revPunctSpace2 text

/-- Rule 1 of nlp.py `combine_with_previous` (lines 107-111): current span
shorter than 3 tokens and (first character lowercase, or the previous span's
text contains a closing parenthesis).  `none` models the `IndexError` that
`current.text[0]` raises on an empty text; `some false` means the rule was
passed without firing.  Short-circuit order follows the Python source:
`current.text[0]` is only read when the length test succeeds. -/
def shortFragmentFires (previous current : PySpan) : Option Bool :=
  if current.stop - current.start < 3 then
    match current.text with
    | [] => none
    | c :: _ => some (pyIsLower c || previous.text.contains ')')
  else some false

/-- Rule 2 of nlp.py `combine_with_previous` (lines 113-117): current span
shorter than 7 tokens and containing a closing parenthesis. -/
def closeParenFires (current : PySpan) : Bool :=
  decide (current.stop - current.start < 7) && current.text.contains ')'

/-- Rule 3 of nlp.py `combine_with_previous` (lines 119-123): previous span
shorter than 3 tokens and starting with an uppercase character.  `none`
models the `IndexError` on `previous.text[0]`. -/
def shortCapPrevFires (previous : PySpan) : Option Bool :=
  if previous.stop - previous.start < 3 then
    match previous.text with
    | [] => none
    | c :: _ => some (pyIsUpper c)
  else some false

/-- Rule 4 of nlp.py `combine_with_previous` (lines 125-133): the previous
span's text has no sentence-final punctuation, i.e. none of the five
end-anchored regexes matches. -/
def noEndingPunctFires (previous : PySpan) : Bool :=
  !hasEndingPunct previous.text

/-- nlp.py `combine_with_previous` (lines 89-135): evaluate the four rules
in source order with Python short-circuiting; `none` models an uncaught
`IndexError`. -/
def combine_with_previous (previous current : PySpan) : Option Bool :=
  match shortFragmentFires previous current with
  | none => none
  | some true => some true
  | some false =>
    if closeParenFires current then some true
    else
      match shortCapPrevFires previous with
      | none => none
      | some true => some true
      | some false =>
        if noEndingPunctFires previous then some true
        else some false

/-- Merging loop of nlp.py `sentence_segmenter` (lines 156-176).  The
accumulator `acc` is `sen_offsets`; the previous sentence is the span of the
last accumulated offset pair.  When a previous sentence exists the classifier
is called (its `IndexError`, modelled by `none`, propagates), but its result
is conjoined with the literal `False` of line 171 (comment `### NEVER` in the
source), so the fold branch of line 173 is unreachable and the candidate is
always appended. -/
def segLoop (doc : SDoc) : List (Nat × Nat) → List (Nat × Nat) →
    Option (List (Nat × Nat))
  | [], acc => some acc
  | (s, e) :: rest, acc =>
    match acc.getLast? with
    | none => segLoop doc rest (acc ++ [(s, e)])
    | some (ps, pe) =>
      match combine_with_previous (spanOf doc ps pe) (spanOf doc s e) with
      | none => none
      | some _ => segLoop doc rest (acc ++ [(s, e)])

/-- Whitespace-shift loop of nlp.py `sentence_segmenter` (lines 178-190).
For a span that is not the document-initial one and whose starting token's
text has no non-whitespace character (`re.search` of `\S` fails), the
previous final span is lengthened by one token and the current span starts
one token later; there is no guard against the current span becoming empty.
`none` models the `IndexError` of `doc[start]` or `final_offsets[-1]`. -/
def shiftLoop (doc : SDoc) : List (Nat × Nat) → List (Nat × Nat) →
    Option (List (Nat × Nat))
  | [], final => some final
  | (s, e) :: rest, final =>
    if s > 0 then
      match doc.tokens[s]? with
      | none => none
      | some tok =>
        if tok.text.all pyIsSpace then
          match final.getLast? with
          | none => none
          | some (ps, pe) =>
            shiftLoop doc rest (final.dropLast ++ [(ps, pe + 1), (s + 1, e)])
        else shiftLoop doc rest (final ++ [(s, e)])
    else shiftLoop doc rest (final ++ [(s, e)])

/-- nlp.py `sentence_segmenter` (lines 138-196): the merging loop over the
raw sentence candidates followed by the whitespace-shift pass. -/
def sentence_segmenter (doc : SDoc) : Option (List (Nat × Nat)) :=
  match segLoop doc doc.sents [] with
  | none => none
  | some sen_offsets => shiftLoop doc sen_offsets []

/-- One token of the marking loop of nlp.py `set_sentence_starts`
(lines 41-45): `is_sent_start` becomes `True` when the token's index is one
of the collected segment starts, `None` otherwise. -/
def markTok (starts : List Nat) (i : Nat) (t : Token) : Token :=
  if starts.contains i then { t with sent_start := some true }
  else { t with sent_start := none }

/-- Marking loop of nlp.py `set_sentence_starts`: the loop runs over
`doc[:-1]`, so a token is rewritten exactly when its index `i` satisfies
`i + 1 < n` where `n` is the token count; the last token is left as it is. -/
def markTokens (starts : List Nat) (n : Nat) : Nat → List Token → List Token
  | _, [] => []
  | i, t :: rest =>
    (if i + 1 < n then markTok starts i t else t) :: markTokens starts n (i + 1) rest

/-- nlp.py `set_sentence_starts` (lines 30-47): collect the start offsets of
the segments returned by `sentence_segmenter` and rewrite `is_sent_start` of
every token but the last. -/
def set_sentence_starts (doc : SDoc) : Option SDoc :=
  match sentence_segmenter doc with
  | none => none
  | some offsets =>
    some { doc with
           tokens := markTokens (offsets.map Prod.fst) doc.tokens.length 0 doc.tokens }

/-- document.py `Document.combine_with_previous` (lines 91-124): current
span shorter than 3 tokens, or previous span's text without sentence-final
punctuation.  This variant reads no individual character, so it is total. -/
def doc_combine_with_previous (previous current : PySpan) : Bool :=
  if current.stop - current.start < 3 then true
  else if !hasEndingPunct previous.text then true
  else false

/-- The short-current rule of document.py `Document.combine_with_previous`
(lines 108-112) in isolation: the current span has fewer than 3 tokens.
Unlike the nlp.py short-fragment rule there is no capitalization or
closing-parenthesis condition. -/
def docShortRuleFires (current : PySpan) : Bool :=
  decide (current.stop - current.start < 3)

/-- A finalized sentence of document.py `Document.generate_sentences`: the
doc the sentence span points into, the span's offsets, and the doc from
which the sentence's tree `Node` is built (first argument of `Node(...)` at
lines 177 and 183). -/
structure Sent where
  sdoc : SDoc
  start : Nat
  stop : Nat
  treeDoc : SDoc
  deriving Repr, DecidableEq

/-- Candidate loop of document.py `Document.generate_sentences`
(lines 145-169) for the single parsed doc built by `Document.__init__`.
`prevCand` is `spacy_sentences[i-1]` (`None` at `i = 0`), `acc` is
`sen_offsets`, and `ntr` is the `need_to_reparse` flag.  On a merge the last
accumulated pair keeps its start and takes the current candidate's end
(lines 165-166); `none` models the `IndexError` of `sen_offsets[-1]` on an
empty accumulator. -/
def genLoop (doc : SDoc) : Option (Nat × Nat) → List (Nat × Nat) →
    List (Nat × Nat) → Bool → Option (List (Nat × Nat) × Bool)
  | _, [], acc, ntr => some (acc, ntr)
  | prevCand, (s, e) :: rest, acc, ntr =>
    match prevCand with
    | none => genLoop doc (some (s, e)) rest (acc ++ [(s, e)]) ntr
    | some (ps, pe) =>
      if doc_combine_with_previous (spanOf doc ps pe) (spanOf doc s e) then
        match acc.getLast? with
        | none => none
        | some (a, _) =>
          genLoop doc (some (s, e)) rest (acc.dropLast ++ [(a, e)]) true
      else genLoop doc (some (s, e)) rest (acc ++ [(s, e)]) ntr

/-- document.py `Document.generate_sentences` (lines 127-185) for the single
doc of `Document.__init__`, with the external parser `spacy_nlp` passed in
as a function from text to parsed doc.  When a merge occurred, each
finalized span's text is reparsed and the entire fresh doc becomes the
sentence span (`doc2[:]`, lines 171-177); otherwise the original spans are
kept (lines 179-183). -/
def generate_sentences (parse : List Char → SDoc) (doc : SDoc) :
    Option (List Sent) :=
  match genLoop doc none doc.sents [] false with
  | none => none
  | some (offsets, need_to_reparse) =>
    if need_to_reparse then
      some (offsets.map (fun p =>
        let d2 := parse (spanText doc p.1 p.2)
        ⟨d2, 0, d2.tokens.length, d2⟩))
    else
      some (offsets.map (fun p => ⟨doc, p.1, p.2, doc⟩))

/-- A Python value stored in an `Object`'s `_value_` dict (objects.py). -/
inductive PyVal where
  | bool (b : Bool)
  | int (n : Int)
  | str (s : List Char)
  | none
  deriving Repr, DecidableEq

/-- objects.py `Object`: the `_value_` dict, modelled as an association
list in which an assignment prepends its pair and lookup takes the first
binding of a key. -/
structure Object where
  value : List (String × PyVal)
  deriving Repr, DecidableEq

/-- objects.py `Object.set` (lines 101-111): `self._value_[key] = val`. -/
def Object.set (o : Object) (key : String) (val : PyVal) : Object :=
  ⟨(key, val) :: o.value⟩

/-- objects.py `Object.get` (lines 114-122): return `self._value_[key]`,
and `False` when the key raises `KeyError`. -/
def Object.get (o : Object) (key : String) : PyVal :=
  match o.value.lookup key with
  | some v => v
  | Option.none => PyVal.bool false

/-- The offset pairs `l` chain the token range from `a` to `b`: each pair
starts where its predecessor ended (document order, contiguity, no overlap),
each pair is non-decreasing, the first pair starts at `a` and the last ends
at `b`.  `chainedB 0 l n` is the partition property of the spec for a
document of `n` tokens. -/
def chainedB : Nat → List (Nat × Nat) → Nat → Bool
  | a, [], b => a == b
  | a, (s, e) :: rest, b => s == a && decide (s ≤ e) && chainedB e rest b

/-- Modelled from the spec: regex `[.?!]` followed by one trailing
non-alphanumeric character, as the spec's missing-terminal-punctuation rule
words it, on the reversed character list. -/
def revPunctNonAlnum : List Char → Bool
  | c :: b :: _ => !pyIsAlnum c && isPunct b
  | _ => false

/-- Modelled from the spec: regex `[.?!]` followed by two trailing
non-alphanumeric characters, on the reversed character list. -/
def revPunctNonAlnum2 : List Char → Bool
  | c :: b :: a :: _ => !pyIsAlnum c && !pyIsAlnum b && isPunct a
  | _ => false

/-- Modelled from the spec: the spec's wording of the ending condition of
the missing-terminal-punctuation rule, with "up to two non-alphanumeric
trailing characters" taken literally: the text ends in `.`, `?` or `!`
optionally followed by up to two non-alphanumeric characters or up to two
whitespace characters. -/
def specEndsTerminalAlnum (text : List Char) : Bool :=
  revPunct text.reverse || revPunctNonAlnum text.reverse ||
  revPunctNonAlnum2 text.reverse || revPunctSpace text.reverse ||
  revPunctSpace2 text.reverse

/-- Spec wording of the ending condition with "non-alphanumeric" amended to
"non-whitespace" (Python `\S`): the text ends in `.`, `?` or `!` optionally
followed by up to two non-whitespace characters or up to two whitespace
characters, each pattern anchored at the very end of the text. -/
def specEndsTerminalNonWS (text : List Char) : Bool :=
  revPunct text.reverse || revPunctNonSpace text.reverse ||
  revPunctNonSpace2 text.reverse || revPunctSpace text.reverse ||
  revPunctSpace2 text.reverse

/-- Two-token document whose second raw sentence candidate is a short
lowercase fragment, so the merge classifier votes to merge it into the
first. -/
def exDocLower : SDoc :=
  ⟨[⟨['H', 'e', 'l', 'l', 'o'], [' '], Option.none⟩,
    ⟨['w', 'o', 'r', 'l', 'd'], [], Option.none⟩],
   [(0, 1), (1, 2)]⟩

/-- Two-token document whose second raw sentence candidate is a single
whitespace token. -/
def wsDoc : SDoc :=
  ⟨[⟨['H', 'i'], [], Option.none⟩, ⟨[' '], [], Option.none⟩],
   [(0, 1), (1, 2)]⟩

/-- The doc `set_sentence_starts` produces on `wsDoc`. -/
def wsDocMarked : SDoc :=
  ⟨[⟨['H', 'i'], [], some true⟩, ⟨[' '], [], Option.none⟩],
   [(0, 1), (1, 2)]⟩

/-- Two-token document on which `Document.generate_sentences` folds its
second candidate (a one-token span) into the first. -/
def exDocFold : SDoc :=
  ⟨[⟨['O', 'k'], [' '], Option.none⟩, ⟨['.'], [], Option.none⟩],
   [(0, 1), (1, 2)]⟩

/-- Eight-token document with two well-terminated candidate sentences of
four tokens each, on which `Document.generate_sentences` folds nothing. -/
def exDocNoFold : SDoc :=
  ⟨[⟨['a'], [' '], Option.none⟩, ⟨['b'], [' '], Option.none⟩,
    ⟨['c'], [], Option.none⟩, ⟨['.'], [' '], Option.none⟩,
    ⟨['d'], [' '], Option.none⟩, ⟨['e'], [' '], Option.none⟩,
    ⟨['f'], [], Option.none⟩, ⟨['.'], [], Option.none⟩],
   [(0, 4), (4, 8)]⟩

/-- A stand-in external parser for witnesses: the parsed doc has one token
carrying the whole text and a single sentence. -/
def exParse (text : List Char) : SDoc :=
  ⟨[⟨text, [], Option.none⟩], [(0, 1)]⟩

/-- A second stand-in external parser, distinguishable from `exParse`. -/
def exParse2 (text : List Char) : SDoc :=
  ⟨[⟨text, [], Option.none⟩, ⟨[], [], Option.none⟩], [(0, 2)]⟩

theorem pyIsUpper_not_lower {c : Char} (h : pyIsUpper c = true) :
    pyIsLower c = false := by
  rw [← Bool.not_eq_true]
  intro hl
  simp only [pyIsUpper, pyIsLower, Bool.and_eq_true, decide_eq_true_eq] at h hl
  omega

theorem pyIsAlnum_not_space {c : Char} (h : pyIsAlnum c = true) :
    pyIsSpace c = false := by
  rw [← Bool.not_eq_true]
  intro hs
  simp only [pyIsAlnum, pyIsSpace, Bool.and_eq_true, Bool.or_eq_true,
    decide_eq_true_eq, beq_iff_eq] at h hs
  omega

theorem chainedB_append (l : List (Nat × Nat)) :
    ∀ {m : List (Nat × Nat)} {x a b : Nat},
      chainedB x l a = true → chainedB a m b = true →
      chainedB x (l ++ m) b = true := by
  induction l with
  | nil =>
    intro m x a b hl hm
    simp only [chainedB, beq_iff_eq] at hl
    subst hl
    simpa using hm
  | cons p t ih =>
    intro m x a b hl hm
    obtain ⟨s, e⟩ := p
    simp only [chainedB, Bool.and_eq_true, beq_iff_eq, decide_eq_true_eq,
      List.cons_append] at hl ⊢
    exact ⟨⟨hl.1.1, hl.1.2⟩, ih hl.2 hm⟩

theorem chainedB_le (l : List (Nat × Nat)) :
    ∀ {a b : Nat}, chainedB a l b = true → a ≤ b := by
  induction l with
  | nil =>
    intro a b h
    simp only [chainedB, beq_iff_eq] at h
    omega
  | cons p t ih =>
    intro a b h
    obtain ⟨s, e⟩ := p
    simp only [chainedB, Bool.and_eq_true, beq_iff_eq, decide_eq_true_eq] at h
    have := ih h.2
    omega

theorem chainedB_bound (l : List (Nat × Nat)) :
    ∀ {a b : Nat}, chainedB a l b = true → ∀ p ∈ l, p.2 ≤ b := by
  induction l with
  | nil => intro a b _ p hp; simp at hp
  | cons q t ih =>
    intro a b h p hp
    obtain ⟨s, e⟩ := q
    simp only [chainedB, Bool.and_eq_true, beq_iff_eq, decide_eq_true_eq] at h
    rcases List.mem_cons.mp hp with hph | hpt
    · subst hph
      exact chainedB_le t h.2
    · exact ih h.2 p hpt

theorem chainedB_snoc (l : List (Nat × Nat)) :
    ∀ {x s e b : Nat},
      chainedB x (l ++ [(s, e)]) b = true ↔
        (chainedB x l s = true ∧ s ≤ e ∧ e = b) := by
  induction l with
  | nil =>
    intro x s e b
    simp only [List.nil_append, chainedB, Bool.and_eq_true, beq_iff_eq,
      decide_eq_true_eq]
    constructor
    · rintro ⟨⟨h1, h2⟩, h3⟩; exact ⟨h1.symm, h2, h3⟩
    · rintro ⟨h1, h2, h3⟩; exact ⟨⟨h1.symm, h2⟩, h3⟩
  | cons p t ih =>
    intro x s e b
    obtain ⟨s2, e2⟩ := p
    have hc : (s2, e2) :: t ++ [(s, e)] = (s2, e2) :: (t ++ [(s, e)]) := rfl
    rw [hc]
    simp only [chainedB, Bool.and_eq_true, beq_iff_eq,
      decide_eq_true_eq, ih, and_assoc]

theorem spanText_ne_nil (doc : SDoc) (s e : Nat) (hse : s < e)
    (he : e ≤ doc.tokens.length) (h3 : ∀ t ∈ doc.tokens, t.text ≠ []) :
    spanText doc s e ≠ [] := by
  unfold spanText
  obtain ⟨t, rest, hsl⟩ : ∃ t rest,
      (doc.tokens.drop s).take (e - s) = t :: rest := by
    have hlen : 0 < ((doc.tokens.drop s).take (e - s)).length := by
      rw [List.length_take, List.length_drop]
      omega
    match hx : (doc.tokens.drop s).take (e - s) with
    | [] => rw [hx] at hlen; simp at hlen
    | t :: rest => exact ⟨t, rest, rfl⟩
  rw [hsl]
  have ht : t ∈ doc.tokens := by
    have h1 : t ∈ (doc.tokens.drop s).take (e - s) := by
      rw [hsl]; exact List.mem_cons_self t rest
    exact List.drop_subset s doc.tokens (List.take_subset _ _ h1)
  have htx : t.text ≠ [] := h3 t ht
  cases rest with
  | nil => simpa [joinToks] using htx
  | cons u us =>
    simp only [joinToks, ne_eq, List.append_assoc, List.append_eq_nil]
    intro hh
    exact htx hh.1

theorem shortFragmentFires_ne_none (previous current : PySpan)
    (hc : current.text ≠ []) : shortFragmentFires previous current ≠ none := by
  unfold shortFragmentFires
  split
  · match hx : current.text with
    | [] => exact absurd hx hc
    | c :: cs => simp
  · simp

theorem shortCapPrevFires_ne_none (previous : PySpan)
    (hp : previous.text ≠ []) : shortCapPrevFires previous ≠ none := by
  unfold shortCapPrevFires
  split
  · match hx : previous.text with
    | [] => exact absurd hx hp
    | c :: cs => simp
  · simp

theorem combine_with_previous_isSome (previous current : PySpan)
    (hp : previous.text ≠ []) (hc : current.text ≠ []) :
    (combine_with_previous previous current).isSome = true := by
  unfold combine_with_previous
  rcases hf : shortFragmentFires previous current with _ | b
  · exact absurd hf (shortFragmentFires_ne_none previous current hc)
  rcases hsc : shortCapPrevFires previous with _ | b2
  · exact absurd hsc (shortCapPrevFires_ne_none previous hp)
  cases b
  · simp only [hf]
    split
    · simp
    · cases b2 <;> simp only [hsc]
      · split <;> simp
      · simp
  · simp only [hf, Option.isSome_some]

theorem segLoop_eq_append (doc : SDoc) :
    ∀ (cs acc : List (Nat × Nat)),
      (∀ p ∈ acc, spanText doc p.1 p.2 ≠ []) →
      (∀ p ∈ cs, spanText doc p.1 p.2 ≠ []) →
      segLoop doc cs acc = some (acc ++ cs) := by
  intro cs
  induction cs with
  | nil => intro acc _ _; simp [segLoop]
  | cons q rest ih =>
    intro acc hacc hcs
    obtain ⟨s, e⟩ := q
    have hnext : ∀ p ∈ acc ++ [(s, e)], spanText doc p.1 p.2 ≠ [] := by
      intro p hpm
      rcases List.mem_append.mp hpm with hpm | hpm
      · exact hacc p hpm
      · simp only [List.mem_singleton] at hpm
        subst hpm
        exact hcs (s, e) (List.mem_cons_self _ _)
    have hrest : ∀ p ∈ rest, spanText doc p.1 p.2 ≠ [] := fun p hpm =>
      hcs p (List.mem_cons_of_mem _ hpm)
    have happ : acc ++ [(s, e)] ++ rest = acc ++ (s, e) :: rest := by simp
    cases hL : acc.getLast? with
    | none =>
      have := ih (acc ++ [(s, e)]) hnext hrest
      simp only [segLoop, hL]
      rw [this, happ]
    | some pp =>
      obtain ⟨ps, pe⟩ := pp
      have hdec : acc.dropLast ++ [(ps, pe)] = acc :=
        List.dropLast_append_getLast? _ hL
      have hmem : (ps, pe) ∈ acc := by
        rw [← hdec]
        exact List.mem_append_right _ (List.mem_singleton.mpr rfl)
      have hprev : (spanOf doc ps pe).text ≠ [] := hacc (ps, pe) hmem
      have hcur : (spanOf doc s e).text ≠ [] :=
        hcs (s, e) (List.mem_cons_self _ _)
      have hsome := combine_with_previous_isSome (spanOf doc ps pe)
        (spanOf doc s e) hprev hcur
      rcases Option.isSome_iff_exists.mp hsome with ⟨b, hb⟩
      have := ih (acc ++ [(s, e)]) hnext hrest
      simp only [segLoop, hL, hb]
      rw [this, happ]

theorem shiftLoop_chain (doc : SDoc) :
    ∀ (pend : List (Nat × Nat)) (final : List (Nat × Nat)) (a : Nat) {n : Nat},
      chainedB 0 final a = true →
      chainedB a pend n = true →
      (∀ p ∈ pend, p.1 < p.2) →
      n ≤ doc.tokens.length →
      ∃ out, shiftLoop doc pend final = some out ∧ chainedB 0 out n = true := by
  intro pend
  induction pend with
  | nil =>
    intro final a n hf hp _ _
    have han : a = n := by simpa [chainedB] using hp
    subst han
    exact ⟨final, by simp [shiftLoop], hf⟩
  | cons q rest ih =>
    obtain ⟨s, e⟩ := q
    intro final a n hf hp hstrict hn
    simp only [chainedB, Bool.and_eq_true, beq_iff_eq, decide_eq_true_eq] at hp
    obtain ⟨⟨hsa, hsle⟩, hchain⟩ := hp
    subst hsa
    have hse : s < e := hstrict (s, e) (List.mem_cons_self _ _)
    have hen : e ≤ n := chainedB_le rest hchain
    have hstrict2 : ∀ p ∈ rest, p.1 < p.2 := fun p hpm =>
      hstrict p (List.mem_cons_of_mem _ hpm)
    by_cases hs0 : s > 0
    · have hslen : s < doc.tokens.length := by omega
      have hidx : doc.tokens[s]? = some doc.tokens[s] :=
        List.getElem?_eq_getElem hslen
      by_cases hws : doc.tokens[s].text.all pyIsSpace
      · have hfne : final ≠ [] := by
          intro hnil
          subst hnil
          simp only [chainedB, beq_iff_eq] at hf
          omega
        cases hL : final.getLast? with
        | none => exact absurd (List.getLast?_eq_none_iff.mp hL) hfne
        | some pp =>
          obtain ⟨ps, pe⟩ := pp
          have hdec : final.dropLast ++ [(ps, pe)] = final :=
            List.dropLast_append_getLast? _ hL
          have hsnoc := chainedB_snoc final.dropLast
            (x := 0) (s := ps) (e := pe) (b := s)
          rw [hdec] at hsnoc
          obtain ⟨hdl, hpse, hpes⟩ := hsnoc.mp hf
          have hf2 : chainedB 0 (final.dropLast ++ [(ps, pe + 1), (s + 1, e)]) e := by
            apply chainedB_append final.dropLast hdl
            simp only [chainedB, Bool.and_eq_true, beq_iff_eq, decide_eq_true_eq,
              true_and, and_true, eq_self_iff_true]
            omega
          obtain ⟨out, hout, hcout⟩ :=
            ih (final.dropLast ++ [(ps, pe + 1), (s + 1, e)]) e hf2 hchain
              hstrict2 hn
          refine ⟨out, ?_, hcout⟩
          simp only [shiftLoop, hs0, if_true, hidx, hws, if_true, hL]
          exact hout
      · have hf2 : chainedB 0 (final ++ [(s, e)]) e := by
          apply chainedB_append final hf
          simp only [chainedB, Bool.and_eq_true, beq_iff_eq, decide_eq_true_eq,
            true_and, and_true, eq_self_iff_true]
          omega
        obtain ⟨out, hout, hcout⟩ :=
          ih (final ++ [(s, e)]) e hf2 hchain hstrict2 hn
        refine ⟨out, ?_, hcout⟩
        simp only [shiftLoop, hs0, if_true, hidx, hws, if_false]
        exact hout
    · have hf2 : chainedB 0 (final ++ [(s, e)]) e := by
        apply chainedB_append final hf
        simp only [chainedB, Bool.and_eq_true, beq_iff_eq, decide_eq_true_eq,
          true_and, and_true, eq_self_iff_true]
        omega
      obtain ⟨out, hout, hcout⟩ :=
        ih (final ++ [(s, e)]) e hf2 hchain hstrict2 hn
      refine ⟨out, ?_, hcout⟩
      simp only [shiftLoop, hs0, if_false]
      exact hout

theorem genLoop_flag_mono (doc : SDoc) :
    ∀ (cs : List (Nat × Nat)) (pc : Option (Nat × Nat))
      (acc offs : List (Nat × Nat)) (b : Bool),
      genLoop doc pc cs acc true = some (offs, b) → b = true := by
  intro cs
  induction cs with
  | nil =>
    intro pc acc offs b h
    simp only [genLoop, Option.some.injEq, Prod.mk.injEq] at h
    exact h.2.symm
  | cons q rest ih =>
    intro pc acc offs b h
    obtain ⟨s, e⟩ := q
    cases pc with
    | none => exact ih _ _ _ _ h
    | some pp =>
      obtain ⟨ps, pe⟩ := pp
      simp only [genLoop] at h
      split at h
      · cases hL : acc.getLast? with
        | none => rw [hL] at h; simp at h
        | some aa =>
          obtain ⟨a1, a2⟩ := aa
          rw [hL] at h
          exact ih _ _ _ _ h
      · exact ih _ _ _ _ h

theorem genLoop_false_eq_append (doc : SDoc) :
    ∀ (cs : List (Nat × Nat)) (pc : Option (Nat × Nat))
      (acc offs : List (Nat × Nat)),
      genLoop doc pc cs acc false = some (offs, false) → offs = acc ++ cs := by
  intro cs
  induction cs with
  | nil =>
    intro pc acc offs h
    simp only [genLoop, Option.some.injEq, Prod.mk.injEq] at h
    simp [← h.1]
  | cons q rest ih =>
    intro pc acc offs h
    obtain ⟨s, e⟩ := q
    cases pc with
    | none =>
      have := ih _ _ _ h
      simp [this]
    | some pp =>
      obtain ⟨ps, pe⟩ := pp
      simp only [genLoop] at h
      split at h
      · cases hL : acc.getLast? with
        | none => rw [hL] at h; simp at h
        | some aa =>
          obtain ⟨a1, a2⟩ := aa
          rw [hL] at h
          exact absurd (genLoop_flag_mono doc _ _ _ _ _ h) (by simp)
      · have := ih _ _ _ h
        simp [this]

theorem markTokens_getElem? (starts : List Nat) (n : Nat) :
    ∀ (l : List Token) (j i : Nat),
      (markTokens starts n j l)[i]? =
        (l[i]?).map (fun t => if j + i + 1 < n then markTok starts (j + i) t
          else t) := by
  intro l
  induction l with
  | nil => intro j i; simp [markTokens]
  | cons t rest ih =>
    intro j i
    cases i with
    | zero => simp [markTokens]
    | succ i2 =>
      simp only [markTokens, List.getElem?_cons_succ, ih rest.length]
      have := ih (j + 1) i2
      rw [this]
      have harith : j + 1 + i2 = j + (i2 + 1) := by omega
      rw [harith]

/-- C1, counterexample: in nlp.py `sentence_segmenter`, on the two-token
document "Hello world" with candidates (0,1) and (1,2), the classifier votes
to merge the short lowercase second candidate into the first, yet the merging
loop appends it as a new entry instead of extending the last accumulated
span's end (the fold branch is disabled by the literal `False` of line 171):
the accumulator ends as [(0,1),(1,2)], not [(0,2)]. -/
theorem merge_fold_disabled_cx :
    combine_with_previous (spanOf exDocLower 0 1) (spanOf exDocLower 1 2) =
      some true ∧
    segLoop exDocLower [(0, 1), (1, 2)] [] = some [(0, 1), (1, 2)] ∧
    [((0 : Nat), (1 : Nat)), (1, 2)] ≠ [(0, 2)] := by decide

/-- C1, amended: in nlp.py `sentence_segmenter` the fold branch is statically
disabled (`and False`, line 171), so whenever the accumulator is non-empty
and the classifier returns any verdict the candidate is appended as a new
entry; in document.py `Document.generate_sentences` the classifier is applied
to the previous raw candidate span (not the last accumulated span), and when
it returns true the last accumulated span's end is extended to the
candidate's end, otherwise the candidate is appended. -/
theorem merge_fold_amended :
    (∀ (doc : SDoc) (s e ps pe : Nat) (rest acc : List (Nat × Nat)) (b : Bool),
       acc.getLast? = some (ps, pe) →
       combine_with_previous (spanOf doc ps pe) (spanOf doc s e) = some b →
       segLoop doc ((s, e) :: rest) acc = segLoop doc rest (acc ++ [(s, e)]))
  ∧ (∀ (doc : SDoc) (ps pe s e a1 a2 : Nat) (rest acc : List (Nat × Nat))
       (ntr : Bool),
       doc_combine_with_previous (spanOf doc ps pe) (spanOf doc s e) = true →
       acc.getLast? = some (a1, a2) →
       genLoop doc (some (ps, pe)) ((s, e) :: rest) acc ntr =
         genLoop doc (some (s, e)) rest (acc.dropLast ++ [(a1, e)]) true)
  ∧ (∀ (doc : SDoc) (ps pe s e : Nat) (rest acc : List (Nat × Nat))
       (ntr : Bool),
       doc_combine_with_previous (spanOf doc ps pe) (spanOf doc s e) = false →
       genLoop doc (some (ps, pe)) ((s, e) :: rest) acc ntr =
         genLoop doc (some (s, e)) rest (acc ++ [(s, e)]) ntr) := by
  refine ⟨?_, ?_, ?_⟩
  · intro doc s e ps pe rest acc b hL hb
    simp only [segLoop, hL, hb]
  · intro doc ps pe s e a1 a2 rest acc ntr hcomb hL
    simp only [genLoop, hcomb, if_true, hL]
  · intro doc ps pe s e rest acc ntr hcomb
    simp only [genLoop, hcomb, Bool.false_eq_true, if_false]

/-- C1, witness for the amended statement at concrete inputs. -/
theorem merge_fold_amended_witness :
    segLoop exDocLower [(1, 2)] [(0, 1)] =
      segLoop exDocLower [] [(0, 1), (1, 2)] ∧
    genLoop exDocFold (some (0, 1)) [(1, 2)] [(0, 1)] false =
      genLoop exDocFold (some (1, 2)) [] [(0, 2)] true :=
  ⟨merge_fold_amended.1 exDocLower 1 2 0 1 [] [(0, 1)] true rfl (by decide),
   merge_fold_amended.2.1 exDocFold 0 1 1 2 0 1 [] [(0, 1)] false (by decide)
     rfl⟩

/-- C2: for a document whose raw sentence candidates form a non-empty,
contiguous partition of the full token range (the sentencizer contract) and
whose tokens all have non-empty text, `sentence_segmenter` succeeds and
returns a list of spans that is in document order, contiguous (each span's
end is the next span's start), non-overlapping, starting at token 0 and
ending at the token count. -/
theorem sentence_segmenter_partition (doc : SDoc)
    (h1 : chainedB 0 doc.sents doc.tokens.length = true)
    (h2 : ∀ p ∈ doc.sents, p.1 < p.2)
    (h3 : ∀ t ∈ doc.tokens, t.text ≠ []) :
    ∃ out, sentence_segmenter doc = some out ∧
      chainedB 0 out doc.tokens.length = true := by
  have htxt : ∀ p ∈ doc.sents, spanText doc p.1 p.2 ≠ [] := by
    intro p hp
    exact spanText_ne_nil doc p.1 p.2 (h2 p hp)
      (chainedB_bound doc.sents h1 p hp) h3
  have hseg : segLoop doc doc.sents [] = some doc.sents := by
    have h := segLoop_eq_append doc doc.sents [] (by simp) htxt
    simpa using h
  obtain ⟨out, hout, hchain⟩ := shiftLoop_chain doc doc.sents [] 0
    (by simp [chainedB]) h1 h2 (le_refl _)
  refine ⟨out, ?_, hchain⟩
  unfold sentence_segmenter
  rw [hseg]
  exact hout

/-- C2, witness at a concrete document. -/
theorem sentence_segmenter_partition_witness :
    chainedB 0 wsDoc.sents wsDoc.tokens.length = true ∧
    (∃ out, sentence_segmenter wsDoc = some out ∧
      chainedB 0 out wsDoc.tokens.length = true) :=
  ⟨by decide,
   sentence_segmenter_partition wsDoc (by decide) (by decide) (by decide)⟩

/-- C3, counterexample: document.py `Document.combine_with_previous`
(lines 108-112) fires its short rule for ANY current span of fewer than 3
tokens.  On the uppercase-initial one-token current span "Wow" with previous
"Hi." (no closing parenthesis, and ending in terminal punctuation so the
other document.py rule cannot fire), the claim says the short-fragment rule
must not fire, yet the document.py classifier returns true via the short
rule; the nlp.py rule, by contrast, passes without firing. -/
theorem short_fragment_rule_doc_cx :
    doc_combine_with_previous ⟨0, 1, ['H', 'i', '.']⟩
      ⟨1, 2, ['W', 'o', 'w']⟩ = true ∧
    docShortRuleFires ⟨1, 2, ['W', 'o', 'w']⟩ = true ∧
    hasEndingPunct ['H', 'i', '.'] = true ∧
    shortFragmentFires ⟨0, 1, ['H', 'i', '.']⟩ ⟨1, 2, ['W', 'o', 'w']⟩ =
      some false := by decide

/-- C3, amended: the claimed characterization holds for the nlp.py
short-fragment rule only — it fires exactly when the current span has fewer
than 3 tokens and (its first character is lowercase or the previous span's
text contains a closing parenthesis), it forces a merge verdict when it
fires, and it does not fire for an uppercase-initial short span with a
paren-free predecessor — while the short rule of document.py
`Document.combine_with_previous` fires exactly when the current span has
fewer than 3 tokens, regardless of capitalization or parentheses, and
forces a merge verdict whenever it fires. -/
theorem short_fragment_rule_correct :
    (∀ (previous current : PySpan) (c : Char) (cs : List Char),
       current.text = c :: cs →
       (shortFragmentFires previous current = some true ↔
         (current.stop - current.start < 3 ∧
           (pyIsLower c = true ∨ previous.text.contains ')' = true))))
  ∧ (∀ previous current : PySpan,
       shortFragmentFires previous current = some true →
       combine_with_previous previous current = some true)
  ∧ (∀ (previous current : PySpan) (c : Char) (cs : List Char),
       current.text = c :: cs →
       current.stop - current.start < 3 → pyIsUpper c = true →
       previous.text.contains ')' = false →
       shortFragmentFires previous current = some false)
  ∧ (∀ current : PySpan,
       docShortRuleFires current = true ↔
         current.stop - current.start < 3)
  ∧ (∀ previous current : PySpan, docShortRuleFires current = true →
       doc_combine_with_previous previous current = true) := by
  refine ⟨?_, ?_, ?_, ?_, ?_⟩
  · intro previous current c cs hc
    by_cases hlen : current.stop - current.start < 3
    · simp [shortFragmentFires, hc, hlen]
    · simp [shortFragmentFires, hc, hlen]
  · intro previous current h
    simp [combine_with_previous, h]
  · intro previous current c cs hc hlen hup hpar
    simp [shortFragmentFires, hc, hlen, pyIsUpper_not_lower hup, hpar]
    simpa using hpar
  · intro current
    simp [docShortRuleFires]
  · intro previous current h
    simp only [docShortRuleFires, decide_eq_true_eq] at h
    simp [doc_combine_with_previous, h]

/-- C3, witness for the amended statement at concrete spans. -/
theorem short_fragment_rule_correct_witness :
    (shortFragmentFires ⟨0, 1, ['H', 'i']⟩ ⟨1, 2, ['w', 'o', 'w']⟩ =
        some true ↔
      ((2 : Nat) - 1 < 3 ∧
        (pyIsLower 'w' = true ∨ List.contains ['H', 'i'] ')' = true))) ∧
    combine_with_previous ⟨0, 1, ['H', 'i']⟩ ⟨1, 2, ['w', 'o', 'w']⟩ =
      some true ∧
    shortFragmentFires ⟨0, 1, ['H', 'i']⟩ ⟨1, 2, ['W', 'o', 'w']⟩ =
      some false ∧
    (docShortRuleFires ⟨1, 2, ['w', 'o', 'w']⟩ = true ↔ (2 : Nat) - 1 < 3) ∧
    doc_combine_with_previous ⟨0, 1, ['H', 'i']⟩ ⟨1, 2, ['w', 'o', 'w']⟩ =
      true :=
  ⟨short_fragment_rule_correct.1 ⟨0, 1, ['H', 'i']⟩ ⟨1, 2, ['w', 'o', 'w']⟩
     'w' ['o', 'w'] rfl,
   short_fragment_rule_correct.2.1 ⟨0, 1, ['H', 'i']⟩ ⟨1, 2, ['w', 'o', 'w']⟩
     (by decide),
   short_fragment_rule_correct.2.2.1 ⟨0, 1, ['H', 'i']⟩
     ⟨1, 2, ['W', 'o', 'w']⟩ 'W' ['o', 'w'] rfl (by decide) (by decide)
     (by decide),
   short_fragment_rule_correct.2.2.2.1 ⟨1, 2, ['w', 'o', 'w']⟩,
   short_fragment_rule_correct.2.2.2.2 ⟨0, 1, ['H', 'i']⟩
     ⟨1, 2, ['w', 'o', 'w']⟩ (by decide)⟩

/-- C4, counterexample: on the previous text "a.b" — terminal punctuation
followed by one alphanumeric character — the spec's wording says the text
does not end properly (so the missing-terminal-punctuation rule must fire),
but the code's regex `[.?!]\S$` matches ".b", so the rule does not fire. -/
theorem missing_punct_rule_cx :
    noEndingPunctFires ⟨0, 2, ['a', '.', 'b']⟩ = false ∧
    specEndsTerminalAlnum ['a', '.', 'b'] = false := by decide

/-- C4, amended: the rule fires exactly when the previous text does not end
in `.`, `?` or `!` optionally followed by up to two non-whitespace (not
non-alphanumeric) characters or up to two whitespace characters (stated for
texts not ending in a newline, where Python's `$` anchor is plain
end-of-string); consequently a text ending in terminal punctuation followed
by one alphanumeric character makes the rule NOT fire. -/
theorem missing_punct_rule_amended :
    (∀ previous : PySpan, previous.text.getLast? ≠ some '\n' →
       (noEndingPunctFires previous = true ↔
         specEndsTerminalNonWS previous.text = false))
  ∧ (∀ (t : List Char) (a b : Char) (x y : Nat), isPunct a = true →
       pyIsAlnum b = true →
       noEndingPunctFires ⟨x, y, t ++ [a, b]⟩ = false) := by
  constructor
  · intro previous hlast
    have hh : hasEndingPunct previous.text =
        specEndsTerminalNonWS previous.text := by
      cases hrev : previous.text.reverse with
      | nil =>
        simp [hasEndingPunct, pyEndSearch, specEndsTerminalNonWS, hrev,
          revPunct, revPunctNonSpace, revPunctNonSpace2, revPunctSpace,
          revPunctSpace2]
      | cons c rest =>
        have hc : (c == '\n') = false := by
          rw [← List.head?_reverse] at hlast
          rw [hrev] at hlast
          simp only [List.head?_cons, ne_eq, Option.some.injEq] at hlast
          exact beq_eq_false_iff_ne.mpr hlast
        simp [hasEndingPunct, pyEndSearch, specEndsTerminalNonWS, hrev, hc]
    simp [noEndingPunctFires, hh]
  · intro t a b x y hpa hab
    have hrev : (t ++ [a, b]).reverse = b :: a :: t.reverse := by simp
    have hbs : pyIsSpace b = false := pyIsAlnum_not_space hab
    simp [noEndingPunctFires, hasEndingPunct, pyEndSearch, hrev,
      revPunctNonSpace, hpa, hbs]

/-- C4, witness for the amended statement at concrete texts. -/
theorem missing_punct_rule_amended_witness :
    (noEndingPunctFires ⟨0, 1, ['O', 'k', '.']⟩ = true ↔
      specEndsTerminalNonWS ['O', 'k', '.'] = false) ∧
    noEndingPunctFires ⟨0, 1, ['o', 'k', '.', 'b']⟩ = false :=
  ⟨missing_punct_rule_amended.1 ⟨0, 1, ['O', 'k', '.']⟩ (by decide),
   missing_punct_rule_amended.2 ['o', 'k'] '.' 'b' 0 1 (by decide)
     (by decide)⟩

/-- C5, counterexample: on a document whose second candidate is a single
whitespace token, the whitespace shifter performs the shift anyway and
produces the empty span (2,2) — there is no skip guard protecting against
degenerate spans, contrary to the claim that all resulting spans remain
non-empty. -/
theorem whitespace_shift_no_guard_cx :
    sentence_segmenter wsDoc = some [(0, 2), (2, 2)] ∧
    List.any [((0 : Nat), (2 : Nat)), (2, 2)] (fun p => p.1 == p.2) =
      true := by decide

/-- C5, amended: for every span after the first whose starting token's text
contains no non-whitespace character, the shift is applied unconditionally —
the previous span's end is extended by one and the current span's start is
advanced by one — with no emptiness check, so a single-whitespace-token span
becomes empty. -/
theorem whitespace_shift_unconditional (doc : SDoc) (s e ps pe : Nat)
    (rest final : List (Nat × Nat)) (tok : Token)
    (hs : 0 < s) (hidx : doc.tokens[s]? = some tok)
    (hws : tok.text.all pyIsSpace = true)
    (hL : final.getLast? = some (ps, pe)) :
    shiftLoop doc ((s, e) :: rest) final =
      shiftLoop doc rest (final.dropLast ++ [(ps, pe + 1), (s + 1, e)]) := by
  simp only [shiftLoop, hs, if_true, hidx, hws, hL]

/-- C5, witness for the amended statement at a concrete boundary. -/
theorem whitespace_shift_unconditional_witness :
    shiftLoop wsDoc [(1, 2)] [(0, 1)] =
      shiftLoop wsDoc [] ([(0, 1)].dropLast ++ [(0, 2), (2, 2)]) :=
  whitespace_shift_unconditional wsDoc 1 2 0 1 [] [(0, 1)]
    ⟨[' '], [], Option.none⟩ (by decide) (by decide) (by decide) rfl

/-- C6: when the candidate loop reports at least one fold
(`need_to_reparse = true`), every finalized span's text is passed to the
external parser as an independent text unit and the whole reparsed doc
becomes the sentence span (start 0, end the fresh doc's token count), with
the tree built from the same fresh doc. -/
theorem generate_sentences_reparse (parse : List Char → SDoc) (doc : SDoc)
    (offsets : List (Nat × Nat))
    (h : genLoop doc Option.none doc.sents [] false = some (offsets, true)) :
    generate_sentences parse doc = some (offsets.map (fun p =>
      let d2 := parse (spanText doc p.1 p.2)
      ⟨d2, 0, d2.tokens.length, d2⟩)) ∧
    ∀ sen ∈ (offsets.map (fun p =>
      let d2 := parse (spanText doc p.1 p.2)
      (⟨d2, 0, d2.tokens.length, d2⟩ : Sent))),
      sen.start = 0 ∧ sen.stop = sen.sdoc.tokens.length ∧
        sen.treeDoc = sen.sdoc := by
  constructor
  · unfold generate_sentences
    rw [h]
    rfl
  · intro sen hsen
    simp only [List.mem_map] at hsen
    obtain ⟨p, hp, hpe⟩ := hsen
    subst hpe
    exact ⟨rfl, rfl, rfl⟩

/-- C6, witness at a concrete document with one fold. -/
theorem generate_sentences_reparse_witness :
    generate_sentences exParse exDocFold =
      some [⟨exParse ['O', 'k', ' ', '.'], 0, 1,
        exParse ['O', 'k', ' ', '.']⟩] :=
  ((generate_sentences_reparse exParse exDocFold [(0, 2)]
      (by decide)).1).trans (by decide)

/-- C7: when the candidate loop reports zero folds
(`need_to_reparse = false`), the finalized offsets are exactly the raw
candidates, the sentences are spans of the original doc with those offsets
(original tokens reused unchanged), and the result does not depend on the
parser at all — it is not invoked again. -/
theorem generate_sentences_no_reparse (parse parse2 : List Char → SDoc)
    (doc : SDoc) (offsets : List (Nat × Nat))
    (h : genLoop doc Option.none doc.sents [] false = some (offsets, false)) :
    offsets = doc.sents ∧
    generate_sentences parse doc =
      some (doc.sents.map (fun p => ⟨doc, p.1, p.2, doc⟩)) ∧
    generate_sentences parse doc = generate_sentences parse2 doc := by
  have hoff : offsets = doc.sents := by
    have h2 := genLoop_false_eq_append doc doc.sents Option.none [] offsets h
    simpa using h2
  subst hoff
  refine ⟨rfl, ?_, ?_⟩
  · unfold generate_sentences
    rw [h]
    rfl
  · unfold generate_sentences
    rw [h]
    rfl

/-- C7, witness at a concrete document with zero folds and two distinct
stand-in parsers. -/
theorem generate_sentences_no_reparse_witness :
    generate_sentences exParse exDocNoFold =
      some [⟨exDocNoFold, 0, 4, exDocNoFold⟩,
        ⟨exDocNoFold, 4, 8, exDocNoFold⟩] ∧
    generate_sentences exParse exDocNoFold =
      generate_sentences exParse2 exDocNoFold :=
  ⟨((generate_sentences_no_reparse exParse exParse2 exDocNoFold
       [(0, 4), (4, 8)] (by decide)).2.1).trans (by decide),
   (generate_sentences_no_reparse exParse exParse2 exDocNoFold
       [(0, 4), (4, 8)] (by decide)).2.2⟩

/-- C8: `Object.set` followed by `Object.get` on the same key returns the
stored value, and `Object.get` on a key with no binding returns the Python
value `False` instead of raising. -/
theorem object_set_get :
    (∀ (o : Object) (key : String) (val : PyVal),
       (o.set key val).get key = val)
  ∧ (∀ (o : Object) (key : String),
       o.value.lookup key = Option.none → o.get key = PyVal.bool false) := by
  constructor
  · intro o key val
    simp [Object.set, Object.get, List.lookup]
  · intro o key h
    simp [Object.get, h]

/-- C8, witness: an object with an empty `_value_` dict returns `False` for
an unset key, and returns the stored value after a set. -/
theorem object_set_get_witness :
    Object.get ⟨[]⟩ "color" = PyVal.bool false ∧
    Object.get (Object.set ⟨[]⟩ "color" (PyVal.int 3)) "color" =
      PyVal.int 3 :=
  ⟨object_set_get.2 ⟨[]⟩ "color" rfl,
   object_set_get.1 ⟨[]⟩ "color" (PyVal.int 3)⟩

/-- C9: the nlp.py merge classifier returns a boolean (no error) for every
pair of spans with non-empty texts; and on a well-formed document (token
texts non-empty, span end within range) a current span with empty text makes
the classifier raise (`none`), via the `current.text[0]` read of rule 1. -/
theorem combine_with_previous_totality :
    (∀ previous current : PySpan, previous.text ≠ [] → current.text ≠ [] →
       (combine_with_previous previous current).isSome = true)
  ∧ (∀ (doc : SDoc) (s e : Nat) (previous : PySpan),
       (∀ t ∈ doc.tokens, t.text ≠ []) → e ≤ doc.tokens.length →
       spanText doc s e = [] →
       combine_with_previous previous (spanOf doc s e) = Option.none) := by
  constructor
  · exact combine_with_previous_isSome
  · intro doc s e previous h3 he htext
    have hse : e ≤ s := by
      by_contra hlt
      push_neg at hlt
      exact spanText_ne_nil doc s e hlt he h3 htext
    have hlen : e - s = 0 := by omega
    simp [combine_with_previous, shortFragmentFires, spanOf, htext, hlen]

/-- C9, witness: a concrete non-empty pair yields a boolean, and the empty
span `wsDoc[2:2]` makes the classifier raise. -/
theorem combine_with_previous_totality_witness :
    (combine_with_previous ⟨0, 1, ['H', 'i']⟩
        ⟨1, 2, ['w', 'o', 'w']⟩).isSome = true ∧
    combine_with_previous ⟨9, 9, ['H', 'i']⟩ (spanOf wsDoc 2 2) =
      Option.none :=
  ⟨combine_with_previous_totality.1 ⟨0, 1, ['H', 'i']⟩ ⟨1, 2, ['w', 'o', 'w']⟩
     (by decide) (by decide),
   combine_with_previous_totality.2 wsDoc 2 2 ⟨9, 9, ['H', 'i']⟩ (by decide)
     (by decide) rfl⟩

/-- C10: `set_sentence_starts` rewrites `is_sent_start` of every token whose
index is not the last one — to `True` when some segment returned by
`sentence_segmenter` starts at that index, to `None` otherwise — and leaves
the last token untouched. -/
theorem set_sentence_starts_spec (doc out : SDoc)
    (offsets : List (Nat × Nat))
    (hseg : sentence_segmenter doc = some offsets)
    (hout : set_sentence_starts doc = some out) :
    (∀ (i : Nat) (t : Token), i + 1 < doc.tokens.length →
       doc.tokens[i]? = some t →
       out.tokens[i]? = some (if (offsets.map Prod.fst).contains i
         then { t with sent_start := some true }
         else { t with sent_start := Option.none })) ∧
    (∀ t : Token, doc.tokens[doc.tokens.length - 1]? = some t →
       out.tokens[doc.tokens.length - 1]? = some t) := by
  have hT : out.tokens =
      markTokens (offsets.map Prod.fst) doc.tokens.length 0 doc.tokens := by
    unfold set_sentence_starts at hout
    rw [hseg] at hout
    simp only [Option.some.injEq] at hout
    rw [← hout]
  constructor
  · intro i t hi hti
    rw [hT]
    simp only [markTokens_getElem?, hti, Nat.zero_add, hi, if_true, markTok]
    rfl
  · intro t ht
    have hcond : ¬ (0 + (doc.tokens.length - 1) + 1 < doc.tokens.length) := by
      omega
    rw [hT]
    simp only [markTokens_getElem?, ht, hcond, if_false]
    rfl

/-- C10, witness: on the concrete document `wsDoc`, token 0 (a segment
start) is marked `True` and the last token keeps its original flag. -/
theorem set_sentence_starts_spec_witness :
    set_sentence_starts wsDoc = some wsDocMarked ∧
    wsDocMarked.tokens[0]? = some ⟨['H', 'i'], [], some true⟩ :=
  ⟨by decide,
   ((set_sentence_starts_spec wsDoc wsDocMarked [(0, 2), (2, 2)] (by decide)
       (by decide)).1 0 ⟨['H', 'i'], [], Option.none⟩ (by decide)
       rfl).trans (by decide)⟩

example : pyIsLower 'w' = true := by decide
example : hasEndingPunct ['a', '.', 'b'] = true := by decide
example : hasEndingPunct ['a', '.', 'b', 'c', 'd'] = false := by decide
example : hasEndingPunct ['a', '.', '\n'] = true := by decide
example : combine_with_previous ⟨0, 1, ['H', 'i']⟩ ⟨1, 2, []⟩ = none := by
  decide
example : sentence_segmenter wsDoc = some [(0, 2), (2, 2)] := by decide
example : genLoop exDocFold Option.none exDocFold.sents [] false =
    some ([(0, 2)], true) := by decide
example : genLoop exDocNoFold Option.none exDocNoFold.sents [] false =
    some ([(0, 4), (4, 8)], false) := by decide
example : spanText exDocNoFold 0 4 = ['a', ' ', 'b', ' ', 'c', '.'] := by
  decide
